import Mathlib

/-!
Verification of the streamparse bolt engine (`src/streamparse/bolt.py`)
against its natural-language specification.

The file shallowly embeds the two engines of `bolt.py`:

* the single-dispatch engine `Bolt` (its `emit`, `emit_many`, `ack`,
  `fail` helpers and the `run` loop with its exception handler), and
* the batching engine `BatchingBolt` (the producer append path of
  `BatchingBolt.run`, the consumer flush loop `BatchingBolt._batch_entry`
  with its exception handler, and the SIGINT handler
  `_handle_worker_exception`).

Python values, tuples and protocol messages are modelled as plain
inductive types; transport writes become elements of an action trace;
raised exceptions become `Except` errors or explicit outcome values.
The `Tuple` class and the transport live in the `ipc` module which is
not part of the sources, so they are modelled from the specification
(each such definition says so in its doc comment).
-/

set_option autoImplicit false

namespace Streamparse

/-- A JSON-serializable Python value, as carried in tuple payloads. -/
inductive PyVal where
  | pynone : PyVal
  | pybool : Bool → PyVal
  | pyint : Int → PyVal
  | pystr : String → PyVal
  | pylist : List PyVal → PyVal

/-- `isinstance(v, list)` for our Python value model. -/
def PyVal.isList : PyVal → Bool
  | .pylist _ => true
  | _ => false

/-- The element list of a Python list value (meaningful when `isList`). -/
def PyVal.asList : PyVal → List PyVal
  | .pylist l => l
  | _ => []

/-- Modelled from the spec: the `Tuple` class of the missing `ipc`
module — one unit of input with its protocol-assigned `id`, producer
`component`, logical `stream`, numeric source `task` and ordered
`values`. -/
structure Tup where
  id : String
  component : String
  stream : String
  task : Int
  values : List PyVal

/-- An element of the `anchors` argument of `emit`/`emit_many`: either a
raw identifier or a `Tuple` instance. -/
inductive AnchorArg where
  | tupAnchor : Tup → AnchorArg
  | rawAnchor : String → AnchorArg

/-- `a.id if isinstance(a, Tuple) else a` (bolt.py lines 115 and 153). -/
def resolveAnchor : AnchorArg → String
  | .tupAnchor t => t.id
  | .rawAnchor s => s

/-- An outbound `emit` protocol message: the `msg` dict built by
`Bolt.emit` / `Bolt.emit_many`, with `stream` and `task` fields omitted
when unset. -/
structure EmitMsg where
  tuple : PyVal
  anchors : List String
  stream : Option String
  task : Option Int

/-- A Python exception: the ones the engine code raises itself
(`TypeError`, `IndexError`), the one SIGINT would raise by default
(`KeyboardInterrupt`), and arbitrary exceptions escaping user code or
the transport. -/
inductive PyErr where
  | typeError : String → PyErr
  | indexError : PyErr
  | keyboardInterrupt : PyErr
  | userExc : String → PyErr
  deriving DecidableEq

/-- The anchor-resolution step shared by `emit` and `emit_many`
(bolt.py lines 113-115 and 151-153): when `anchors` is `None` it
defaults to `_current_tups` if `AUTO_ANCHOR` is set and to `[]`
otherwise; every element is then reduced to an id. -/
def resolveAnchors (autoAnchor : Bool) (currentTups : List Tup)
    (anchors : Option (List AnchorArg)) : List String :=
  let args := match anchors with
    | none => if autoAnchor then currentTups.map AnchorArg.tupAnchor else []
    | some l => l
  args.map resolveAnchor

/-- `Bolt.emit` (bolt.py lines 89-122): checks the payload is a list,
builds the emit message and performs exactly one transport write,
returned here as the singleton write list. A `TypeError` models the
raised exception, with no write occurring. -/
def Bolt.emit (autoAnchor : Bool) (currentTups : List Tup) (tup : PyVal)
    (stream : Option String) (anchors : Option (List AnchorArg))
    (directTask : Option Int) : Except PyErr (List EmitMsg) :=
  if ¬ tup.isList then
    .error (.typeError "All tuples must be lists.")
  else
    .ok [{ tuple := tup
           anchors := resolveAnchors autoAnchor currentTups anchors
           stream := stream
           task := directTask }]

/-- `Bolt.emit_many` (bolt.py lines 124-170): checks only that the
argument itself is a list, then writes one emit message per element as
one buffered block (the shared `msg` dict gets its `tuple` field
overwritten per element, all other fields constant). -/
def Bolt.emit_many (autoAnchor : Bool) (currentTups : List Tup)
    (tuples : PyVal) (stream : Option String)
    (anchors : Option (List AnchorArg)) (directTask : Option Int) :
    Except PyErr (List EmitMsg) :=
  if ¬ tuples.isList then
    .error (.typeError "tuples should be a list of lists.")
  else
    .ok (tuples.asList.map (fun tp =>
      { tuple := tp
        anchors := resolveAnchors autoAnchor currentTups anchors
        stream := stream
        task := directTask }))

/-- `Bolt.ack` (bolt.py lines 172-179): reduce to an id. -/
def Bolt.ackId : AnchorArg → String := resolveAnchor

/-- `Bolt.fail` (bolt.py lines 181-188): reduce to an id. -/
def Bolt.failId : AnchorArg → String := resolveAnchor

variable {K : Type} [DecidableEq K]

/-- `self._batches[group_key].append(tup)` on the `defaultdict(list)`
store (bolt.py line 325), with the store embedded as an
insertion-ordered association list: append `t` to the entry for `k`, or
create `(k, [t])` at the end when `k` is absent (the `defaultdict`
creates the empty list and the dict keeps insertion order). -/
def batchAppend (bs : List (K × List Tup)) (k : K) (t : Tup) :
    List (K × List Tup) :=
  match bs with
  | [] => [(k, [t])]
  | (k0, ts) :: rest =>
    if k0 = k then (k0, ts ++ [t]) :: rest
    else (k0, ts) :: batchAppend rest k t

/-- Python dict lookup `self._batches[k]` on the association-list
embedding (first entry with the key). -/
def lookupBatch (k : K) : List (K × List Tup) → Option (List Tup)
  | [] => none
  | (k0, ts) :: rest => if k0 = k then some ts else lookupBatch k rest

/-- The producer loop body of `BatchingBolt.run` (bolt.py lines
321-325), iterated over a list of inbound tuples starting from an
arbitrary store: each read tuple is appended under its
`group_key` while holding `_batch_lock`. -/
def runReads (gk : Tup → K) (bs : List (K × List Tup)) (ts : List Tup) :
    List (K × List Tup) :=
  ts.foldl (fun acc t => batchAppend acc (gk t) t) bs

/-- The accumulation store after `ts` producer appends and zero
flushes, starting from the empty store created by
`BatchingBolt.__init__` (bolt.py line 284). -/
def buildBatches (gk : Tup → K) (ts : List Tup) : List (K × List Tup) :=
  runReads gk [] ts

/-! ### Interleaving model of the two tasks

`BatchingBolt` shares the store between the producer (`run`, main
thread) and the consumer (`_batch_entry`, the `_batcher` thread); every
access happens under `_batch_lock`, so an execution is an arbitrary
interleaving of two kinds of atomic lock-protected steps: a producer
append (bolt.py lines 324-325) and a consumer flush (the locked region
of lines 332-342, on its non-raising path). -/

/-- One atomic lock-protected event of the batching engine. -/
inductive Ev where
  | append : Tup → Ev
  | flush : Ev

/-- The shared state of the interleaving model: the live accumulation
store plus the history of batches handed to `process_batch`, one entry
per flush that found the store non-empty. -/
structure BBState (K : Type) where
  batches : List (K × List Tup)
  flushes : List (List (K × List Tup))

/-- The state at engine start: the empty store from
`BatchingBolt.__init__` (bolt.py line 284) and no flush yet. -/
def bbInit : BBState K := ⟨[], []⟩

/-- One atomic lock-protected step. A producer append puts the tuple
under its group key (bolt.py line 325). A consumer flush does nothing
when the store is empty (`continue`, lines 333-335); otherwise it hands
every (key, batch) pair to `process_batch` — recorded in `flushes` —
and resets the store (`self._batches = defaultdict(list)`, line 342),
all inside the same critical section. -/
def bbStep (gk : Tup → K) (s : BBState K) : Ev → BBState K
  | .append t => { s with batches := batchAppend s.batches (gk t) t }
  | .flush =>
    if s.batches.isEmpty then s
    else { batches := [], flushes := s.flushes ++ [s.batches] }

/-- Run of the interleaving model from an arbitrary state. -/
def bbRunFrom (gk : Tup → K) (s : BBState K) (evs : List Ev) : BBState K :=
  evs.foldl (bbStep gk) s

/-- Run of the interleaving model from the engine start state. -/
def bbRun (gk : Tup → K) (evs : List Ev) : BBState K :=
  bbRunFrom gk bbInit evs

/-- All tuples held in a store, in group order. -/
def storeTups (bs : List (K × List Tup)) : List Tup :=
  (bs.map Prod.snd).flatten

/-- All tuples handed to `process_batch` so far, over every flush. -/
def flushedTups (s : BBState K) : List Tup :=
  (s.flushes.map storeTups).flatten

/-- The tuples of the append events of a trace, in order. -/
def appendsOf (evs : List Ev) : List Tup :=
  evs.filterMap (fun e => match e with
    | .append t => some t
    | .flush => none)

/-! ### Observable actions and the consumer loop -/

/-- An observable action of an engine thread: the protocol writes (ack,
fail, error report) plus the two consumer-failure steps that are state
changes rather than writes (recording `exc_info`, sending SIGINT). -/
inductive Action where
  | ackMsg : String → Action
  | failMsg : String → Action
  | errorReport : PyErr → List Tup → Action
  | recordExc : PyErr → Action
  | sigint : Action

/-- Whether an action is a `fail` protocol message. -/
def Action.isFailMsg : Action → Bool
  | .failMsg _ => true
  | _ => false

/-- Whether an action is an error report (`raise_exception`). -/
def Action.isErrorReport : Action → Bool
  | .errorReport _ _ => true
  | _ => false

/-- The group iteration of `_batch_entry` (bolt.py lines 336-341):
for each (key, batch) pair, set `_current_tups` to the batch, call
`process_batch` (its outcome given by the script `pb`; `some e` means
it raises `e`), then auto-ack the batch when `AUTO_ACK` is set.
Returns the actions performed, the final value of `_current_tups`, and
the exception that escaped, if any. -/
def runGroups (autoAck : Bool) (pb : K → List Tup → Option PyErr) :
    List (K × List Tup) → List Tup → List Action × List Tup × Option PyErr
  | [], cur => ([], cur, none)
  | (k, b) :: rest, _ =>
    match pb k b with
    | some e => ([], b, some e)
    | none =>
      let acks := if autoAck then b.map (fun t => Action.ackMsg t.id) else []
      let res := runGroups autoAck pb rest b
      (acks ++ res.1, res.2.1, res.2.2)

/-- The consumer-side state `_batch_entry` reads and writes: the live
store and `_current_tups`. -/
structure ConsumerState (K : Type) where
  batches : List (K × List Tup)
  currentTups : List Tup

/-- One wake-up of the consumer loop of `_batch_entry` (the locked
region, bolt.py lines 332-342): if the store is empty, `continue`;
otherwise iterate the groups of the live store and only after **all**
groups completed replace the store by a fresh empty `defaultdict`
(line 342 runs after the `for` loop). When `process_batch` raises, the
exception escapes the critical section with the store untouched. -/
def batchEntryCycle (autoAck : Bool) (pb : K → List Tup → Option PyErr)
    (s : ConsumerState K) : List Action × ConsumerState K × Option PyErr :=
  if s.batches.isEmpty then ([], s, none)
  else
    let res := runGroups autoAck pb s.batches s.currentTups
    match res.2.2 with
    | none => (res.1, ⟨[], res.2.1⟩, none)
    | some e => (res.1, ⟨s.batches, res.2.1⟩, some e)

/-- Modelled from the spec: the flush cycle as section 4.2 words it —
the consumer "swaps [the store] for a fresh empty store, and — while
still holding exclusive access to the swapped-out view — iterates every
(key, tuples) pair", so the live store is already empty at every point
of the group iteration, including when `process_batch` raises. For
comparison with `batchEntryCycle`. -/
def specFlushCycle (autoAck : Bool) (pb : K → List Tup → Option PyErr)
    (s : ConsumerState K) : List Action × ConsumerState K × Option PyErr :=
  if s.batches.isEmpty then ([], s, none)
  else
    let res := runGroups autoAck pb s.batches s.currentTups
    (res.1, ⟨[], res.2.1⟩, res.2.2)

/-- The `except` block of `_batch_entry` (bolt.py lines 343-349), in
source order: `raise_exception(e, self._current_tups)` first, then the
auto-fail loop when `AUTO_FAIL` is set and `_current_tups` is truthy,
then `self.exc_info = sys.exc_info()`, then
`os.kill(os.getpid(), signal.SIGINT)`. -/
def consumerExcActions (autoFail : Bool) (cur : List Tup) (e : PyErr) :
    List Action :=
  Action.errorReport e cur ::
    ((if autoFail && !cur.isEmpty
      then cur.map (fun t => Action.failMsg t.id) else [])
      ++ [Action.recordExc e, Action.sigint])

/-- The same consumer failure steps in the order the specification and
claim C2 state them: record the exception, auto-fail, report the
error, then signal. For comparison with `consumerExcActions`. -/
def consumerExcActionsSpec (autoFail : Bool) (cur : List Tup) (e : PyErr) :
    List Action :=
  Action.recordExc e ::
    ((if autoFail && !cur.isEmpty
      then cur.map (fun t => Action.failMsg t.id) else [])
      ++ [Action.errorReport e cur, Action.sigint])

/-- `_handle_worker_exception` (bolt.py lines 351-357), the SIGINT
handler installed by `BatchingBolt.__init__` (line 282). It runs
`reraise(*self.exc_info)`: with `exc_info` recorded it re-raises that
exception; with `exc_info` still `None`, star-unpacking `None` itself
raises `TypeError: argument after * must be an iterable, not NoneType`
before `reraise` is entered. The returned value is the exception the
handler raises in the main thread. -/
def handleWorkerException (excInfo : Option PyErr) : PyErr :=
  match excInfo with
  | some e => e
  | none => PyErr.typeError "argument after star must be an iterable, not NoneType"

/-- Modelled from the spec: the worker process top level (outside
`bolt.py`) — per section 6, an exception propagating out of the run
loop terminates the process with exit code 1, a clean return with 0. -/
def processExitCode (outcome : Option PyErr) : Nat :=
  match outcome with
  | some _ => 1
  | none => 0

/-! ### The single-dispatch run loop -/

/-- Outcome of one blocking step of the run loop: a value, or a raised
exception. -/
inductive StepRes (α : Type) where
  | ok : α → StepRes α
  | exc : PyErr → StepRes α

/-- The script of one loop iteration of `Bolt.run`: what `read_tuple()`
does, and — when the read succeeds — whether `process` returns or
raises. -/
structure IterScript where
  readRes : StepRes Tup
  processRes : Option PyErr

/-- How `Bolt.run` terminates. -/
inductive RunOutcome where
  | exitOne : RunOutcome
  | uncaught : PyErr → RunOutcome
  | running : RunOutcome

/-- The `except` block of `Bolt.run` (bolt.py lines 210-215): with
`_current_tups` truthy and `AUTO_FAIL` set, write a fail per in-flight
tuple; then call `raise_exception(e, self._current_tups[0])` and
`sys.exit(1)`. Evaluating the argument `self._current_tups[0]` on an
**empty** list raises `IndexError`, so in that case no error report is
written, `sys.exit(1)` is never reached and the `IndexError` escapes
`run` as an unhandled exception (still a non-zero process exit, but
the original exception is lost and never reported). -/
def boltExceptBlock (autoFail : Bool) (cur : List Tup) (e : PyErr) :
    List Action × RunOutcome :=
  let fails := if autoFail && !cur.isEmpty
    then cur.map (fun t => Action.failMsg t.id) else []
  match cur.head? with
  | some t => (fails ++ [Action.errorReport e [t]], RunOutcome.exitOne)
  | none => (fails, RunOutcome.uncaught PyErr.indexError)

/-- The `while True` loop of `Bolt.run` (bolt.py lines 202-209) run
over an iteration script, starting with `_current_tups = cur`.
Per iteration: read one tuple and make it the sole in-flight unit,
call `process`, auto-ack when `AUTO_ACK` is set, then reset
`_current_tups` to `[]`. Any exception falls into `boltExceptBlock`
with the in-flight list as it stands. Returns the actions performed,
the value of `_current_tups` at the top of each loop iteration, and
the outcome (`running` when the script is exhausted with the loop
still alive). -/
def boltRunLoop (autoAck autoFail : Bool) (cur : List Tup) :
    List IterScript → List Action × List (List Tup) × RunOutcome
  | [] => ([], [cur], .running)
  | it :: rest =>
    match it.readRes with
    | .exc e =>
      let res := boltExceptBlock autoFail cur e
      (res.1, [cur], res.2)
    | .ok t =>
      match it.processRes with
      | some e =>
        let res := boltExceptBlock autoFail [t] e
        (res.1, [cur], res.2)
      | none =>
        let acks := if autoAck then [Action.ackMsg t.id] else []
        let res := boltRunLoop autoAck autoFail [] rest
        (acks ++ res.1, cur :: res.2.1, res.2.2)

/-- `Bolt.run` (bolt.py lines 190-215) after the handshake: call
`initialize` (its outcome given by `initRes`; `some e` means it
raises), then enter the loop with the initial class-level
`_current_tups = []` (bolt.py line 59). An `initialize` failure lands
in the `except` block with the empty in-flight list. -/
def boltRun (autoAck autoFail : Bool) (initRes : Option PyErr)
    (iters : List IterScript) :
    List Action × List (List Tup) × RunOutcome :=
  match initRes with
  | some e =>
    let res := boltExceptBlock autoFail [] e
    (res.1, [], res.2)
  | none => boltRunLoop autoAck autoFail [] iters

/-! ### Concrete example data used by witnesses and counterexamples -/

/-- A sample inbound tuple with id `"1"`. -/
def exTup1 : Tup := ⟨"1", "spout", "default", 0, [PyVal.pystr "hello"]⟩

/-- A sample inbound tuple with id `"2"`. -/
def exTup2 : Tup := ⟨"2", "spout", "default", 0, [PyVal.pystr "world"]⟩

/-- A sample interleaving: append, flush, append, flush. -/
def exEvs : List Ev := [Ev.append exTup1, Ev.flush, Ev.append exTup2, Ev.flush]

theorem runReads_append (gk : Tup → K) (bs : List (K × List Tup))
    (ts : List Tup) (t : Tup) :
    runReads gk bs (ts ++ [t]) = batchAppend (runReads gk bs ts) (gk t) t := by
  simp [runReads, List.foldl_append]

theorem lookupBatch_batchAppend (bs : List (K × List Tup)) (k k0 : K)
    (t : Tup) :
    lookupBatch k (batchAppend bs k0 t) =
      if k0 = k then some ((lookupBatch k bs).getD [] ++ [t])
      else lookupBatch k bs := by
  induction bs with
  | nil =>
    by_cases h : k0 = k <;> simp [batchAppend, lookupBatch, h]
  | cons hd rest ih =>
    obtain ⟨k1, ts1⟩ := hd
    by_cases h1 : k1 = k0
    · subst h1
      by_cases h2 : k1 = k <;> simp [batchAppend, lookupBatch, h2]
    · by_cases h2 : k1 = k
      · subst h2
        have : ¬ k0 = k1 := fun h => h1 h.symm
        simp [batchAppend, lookupBatch, h1, this]
      · simp [batchAppend, lookupBatch, h1, h2, ih]

theorem keys_batchAppend (bs : List (K × List Tup)) (k : K) (t : Tup) :
    (batchAppend bs k t).map Prod.fst =
      if k ∈ bs.map Prod.fst then bs.map Prod.fst
      else bs.map Prod.fst ++ [k] := by
  induction bs with
  | nil => simp [batchAppend]
  | cons hd rest ih =>
    obtain ⟨k1, ts1⟩ := hd
    by_cases h1 : k1 = k
    · subst h1
      simp [batchAppend]
    · have hne : ¬ k = k1 := fun h => h1 h.symm
      by_cases hk : k ∈ rest.map Prod.fst <;>
        simp [batchAppend, h1, hne, hk, ih]

theorem nodupKeys_batchAppend (bs : List (K × List Tup)) (k : K) (t : Tup)
    (h : (bs.map Prod.fst).Nodup) :
    ((batchAppend bs k t).map Prod.fst).Nodup := by
  rw [keys_batchAppend]
  by_cases hk : k ∈ bs.map Prod.fst
  · simpa [hk] using h
  · rw [if_neg hk]
    refine List.Nodup.append h (List.nodup_singleton k) ?_
    intro a ha hb
    rw [List.mem_singleton] at hb
    subst hb
    exact hk ha

/-! ### C9 — emit payload validation -/

/-- C9: `Bolt.emit` raises `TypeError` synchronously for every payload
that is not a list, with no transport write (the error return carries
no message); for a list payload no error is raised and exactly one emit
message is written. -/
theorem emit_validation (autoAnchor : Bool) (curTups : List Tup)
    (stream : Option String) (anchors : Option (List AnchorArg))
    (directTask : Option Int) :
    (∀ v : PyVal, v.isList = false →
      Bolt.emit autoAnchor curTups v stream anchors directTask =
        .error (.typeError "All tuples must be lists.")) ∧
    (∀ l : List PyVal, ∃ m : EmitMsg,
      Bolt.emit autoAnchor curTups (.pylist l) stream anchors directTask =
        .ok [m]) := by
  constructor
  · intro v hv
    simp [Bolt.emit, hv]
  · intro l
    refine ⟨{ tuple := .pylist l
              anchors := resolveAnchors autoAnchor curTups anchors
              stream := stream
              task := directTask }, ?_⟩
    simp [Bolt.emit, PyVal.isList]

/-- Witness for `emit_validation`: a string payload is rejected, an
empty-list payload yields one message. -/
theorem emit_validation_witness :
    (PyVal.pystr "x").isList = false ∧
    Bolt.emit false [] (PyVal.pystr "x") none none none =
      .error (.typeError "All tuples must be lists.") ∧
    ∃ m : EmitMsg, Bolt.emit false [] (PyVal.pylist []) none none none =
      .ok [m] :=
  ⟨rfl, (emit_validation false [] none none none).1 _ rfl,
    (emit_validation false [] none none none).2 []⟩

/-! ### C8 — emit_many argument validation -/

/-- C8 counterexample: a list whose single element is a string — not a
sequence of sequences — is accepted by `emit_many` without any
`TypeError`, and an emit message carrying the bare string is written. -/
theorem emit_many_list_of_nonlists_accepted :
    Bolt.emit_many false [] (PyVal.pylist [PyVal.pystr "a"]) none none none =
      .ok [{ tuple := PyVal.pystr "a", anchors := [],
             stream := none, task := none }] := rfl

/-- C8 (amended): `emit_many` raises `TypeError` exactly when its
argument is not a list at top level; a list is accepted without its
elements being inspected, producing one emit message per element. -/
theorem emit_many_validation (autoAnchor : Bool) (curTups : List Tup)
    (stream : Option String) (anchors : Option (List AnchorArg))
    (directTask : Option Int) :
    (∀ v : PyVal, v.isList = false →
      Bolt.emit_many autoAnchor curTups v stream anchors directTask =
        .error (.typeError "tuples should be a list of lists.")) ∧
    (∀ l : List PyVal, ∃ msgs : List EmitMsg,
      Bolt.emit_many autoAnchor curTups (.pylist l) stream anchors
          directTask = .ok msgs ∧ msgs.length = l.length) := by
  constructor
  · intro v hv
    simp [Bolt.emit_many, hv]
  · intro l
    refine ⟨l.map (fun tp =>
      { tuple := tp
        anchors := resolveAnchors autoAnchor curTups anchors
        stream := stream
        task := directTask }), ?_, ?_⟩
    · simp [Bolt.emit_many, PyVal.isList, PyVal.asList]
    · simp

/-- Witness for `emit_many_validation`: an int argument is rejected, a
two-element list argument yields two messages. -/
theorem emit_many_validation_witness :
    (PyVal.pyint 3).isList = false ∧
    Bolt.emit_many false [] (PyVal.pyint 3) none none none =
      .error (.typeError "tuples should be a list of lists.") ∧
    ∃ msgs : List EmitMsg,
      Bolt.emit_many false []
          (PyVal.pylist [PyVal.pylist [], PyVal.pylist []]) none none none =
        .ok msgs ∧ msgs.length = 2 :=
  ⟨rfl, (emit_many_validation false [] none none none).1 _ rfl,
    (emit_many_validation false [] none none none).2 _⟩

/-! ### C6 — auto-anchor resolution -/

/-- C6: whenever `anchors` is omitted, emitted anchors are exactly the
ids of the current in-flight tuples if `AUTO_ANCHOR` is set and `[]`
otherwise; explicitly given anchors are used as-is with `Tuple` values
reduced to their id — in `emit` and in every message of `emit_many`. -/
theorem auto_anchor_resolution (curTups : List Tup) (v : PyVal)
    (stream : Option String) (directTask : Option Int)
    (ancs : List AnchorArg) (hv : v.isList = true) :
    (Bolt.emit true curTups v stream none directTask =
      .ok [{ tuple := v, anchors := curTups.map Tup.id,
             stream := stream, task := directTask }]) ∧
    (Bolt.emit false curTups v stream none directTask =
      .ok [{ tuple := v, anchors := [],
             stream := stream, task := directTask }]) ∧
    (∀ aa : Bool, Bolt.emit aa curTups v stream (some ancs) directTask =
      .ok [{ tuple := v, anchors := ancs.map resolveAnchor,
             stream := stream, task := directTask }]) ∧
    (∀ msgs m, Bolt.emit_many true curTups v stream none directTask =
        .ok msgs → m ∈ msgs → m.anchors = curTups.map Tup.id) ∧
    (∀ msgs m, Bolt.emit_many false curTups v stream none directTask =
        .ok msgs → m ∈ msgs → m.anchors = []) ∧
    (∀ (aa : Bool) msgs m,
      Bolt.emit_many aa curTups v stream (some ancs) directTask =
        .ok msgs → m ∈ msgs → m.anchors = ancs.map resolveAnchor) := by
  refine ⟨?_, ?_, ?_, ?_, ?_, ?_⟩
  · simp [Bolt.emit, hv, resolveAnchors, List.map_map, Function.comp,
      resolveAnchor]
  · simp [Bolt.emit, hv, resolveAnchors]
  · intro aa
    simp [Bolt.emit, hv, resolveAnchors]
  · intro msgs m hok hm
    rw [Bolt.emit_many, if_neg (by simp [hv])] at hok
    cases hok
    obtain ⟨tp, _, rfl⟩ := List.mem_map.mp hm
    simp [resolveAnchors, List.map_map, Function.comp, resolveAnchor]
  · intro msgs m hok hm
    rw [Bolt.emit_many, if_neg (by simp [hv])] at hok
    cases hok
    obtain ⟨tp, _, rfl⟩ := List.mem_map.mp hm
    simp [resolveAnchors]
  · intro aa msgs m hok hm
    rw [Bolt.emit_many, if_neg (by simp [hv])] at hok
    cases hok
    obtain ⟨tp, _, rfl⟩ := List.mem_map.mp hm
    simp [resolveAnchors]

/-- Witness for `auto_anchor_resolution` at a concrete list payload,
in-flight tuple and explicit anchor list. -/
theorem auto_anchor_resolution_witness :
    (PyVal.pylist [PyVal.pystr "w"]).isList = true ∧
    Bolt.emit true [exTup1] (PyVal.pylist [PyVal.pystr "w"]) none none
        none =
      .ok [{ tuple := PyVal.pylist [PyVal.pystr "w"], anchors := ["1"],
             stream := none, task := none }] :=
  ⟨rfl, by
    have h := (auto_anchor_resolution [exTup1]
      (PyVal.pylist [PyVal.pystr "w"]) none none [] rfl).1
    simpa [exTup1] using h⟩

/-! ### C10 — the SIGINT handler and an unset exc_info -/

/-- C10: `_handle_worker_exception` re-raises the recorded consumer
exception; when SIGINT arrives with `exc_info` still `None`, the
`reraise(*self.exc_info)` call itself raises `TypeError` (star-unpacking
`None`), not the `KeyboardInterrupt` a default SIGINT disposition would
produce — the handler is only well-defined once a consumer failure has
set `exc_info`. -/
theorem sigint_handler_unset_excinfo :
    (∀ e : PyErr, handleWorkerException (some e) = e) ∧
    handleWorkerException none =
      PyErr.typeError
        "argument after star must be an iterable, not NoneType" ∧
    handleWorkerException none ≠ PyErr.keyboardInterrupt := by
  refine ⟨fun e => rfl, rfl, ?_⟩
  decide

/-! ### C2 — consumer failure handling -/

/-- C2 counterexample: at a concrete failure the consumer does **not**
perform the steps in the claimed order (record, fail, report, signal) —
the actual `except` block of `_batch_entry` reports first and records
only after the auto-fails. -/
theorem consumer_failure_order_cex :
    consumerExcActions true [exTup1] (PyErr.userExc "boom") ≠
      consumerExcActionsSpec true [exTup1] (PyErr.userExc "boom") ∧
    consumerExcActions true [exTup1] (PyErr.userExc "boom") =
      [Action.errorReport (PyErr.userExc "boom") [exTup1],
       Action.failMsg "1",
       Action.recordExc (PyErr.userExc "boom"),
       Action.sigint] := by
  refine ⟨?_, rfl⟩
  simp [consumerExcActions, consumerExcActionsSpec]

/-- C2 (amended): on a consumer exception the `except` block first
reports the error via `raise_exception`, then — when `AUTO_FAIL` is
set — writes one fail message per tuple of the batch being processed,
then records the exception in `exc_info`, then sends SIGINT as its last
step; exactly one error report is produced; the SIGINT handler
re-raises the recorded exception in the producer thread, and the
uncaught exception terminates the process with exit code 1. -/
theorem consumer_failure_sequence (autoFail : Bool) (cur : List Tup)
    (e : PyErr) (h : cur ≠ []) :
    (consumerExcActions autoFail cur e).head? =
      some (Action.errorReport e cur) ∧
    ((consumerExcActions autoFail cur e).filter
        Action.isErrorReport).length = 1 ∧
    (autoFail = true →
      ((consumerExcActions autoFail cur e).filter
          Action.isFailMsg).length = cur.length) ∧
    (consumerExcActions autoFail cur e).getLast? = some Action.sigint ∧
    Action.recordExc e ∈ consumerExcActions autoFail cur e ∧
    handleWorkerException (some e) = e ∧
    processExitCode (some e) = 1 := by
  have hsplit : consumerExcActions autoFail cur e =
      (Action.errorReport e cur ::
        ((if autoFail && !cur.isEmpty
          then cur.map (fun t => Action.failMsg t.id) else [])
          ++ [Action.recordExc e])) ++ [Action.sigint] := by
    simp [consumerExcActions]
  refine ⟨rfl, ?_, ?_, ?_, ?_, rfl, rfl⟩
  · cases hb : autoFail && !cur.isEmpty <;>
      simp [consumerExcActions, hb, Action.isErrorReport,
        List.filter_append, List.filter_map, Function.comp]
  · intro haf
    subst haf
    have hbe : cur.isEmpty = false := by
      cases hb2 : cur.isEmpty
      · rfl
      · exact absurd (List.isEmpty_iff.mp hb2) h
    have hmap : (cur.map (fun t => Action.failMsg t.id)).filter
        Action.isFailMsg = cur.map (fun t => Action.failMsg t.id) := by
      rw [List.filter_eq_self]
      intro a ha
      obtain ⟨t, _, rfl⟩ := List.mem_map.mp ha
      rfl
    simp [consumerExcActions, hbe, Action.isFailMsg,
      List.filter_append, hmap]
  · rw [hsplit, List.getLast?_concat]
  · simp [consumerExcActions]

/-- Witness for `consumer_failure_sequence` at a one-tuple batch with
`AUTO_FAIL` enabled. -/
theorem consumer_failure_sequence_witness :
    ([exTup1] : List Tup) ≠ [] ∧
    ((consumerExcActions true [exTup1] (PyErr.userExc "boom")).filter
        Action.isFailMsg).length = 1 :=
  ⟨by simp,
    ((consumer_failure_sequence true [exTup1] (PyErr.userExc "boom")
      (by simp)).2.2.1 rfl).trans rfl⟩

/-! ### C3 — Bolt.run failure with an empty in-flight list -/

/-- C3: the code deviates from the contract. When the exception arrives
with `_current_tups` empty — as it always is for an `initialize` or
`read_tuple` failure — evaluating `self._current_tups[0]` in the
`except` block raises `IndexError`: no fail is written (correct, the
list is empty), but **no error report is sent either**, `sys.exit(1)`
is never reached, and the original exception escapes as an unhandled
`IndexError`, contradicting both the spec and the docstring of
`Bolt.run` ("Any exceptions are caught and logged back to Storm prior
to the Python process exiting"). -/
theorem run_error_report_lost_on_empty_inflight :
    boltRun true true (some (PyErr.userExc "ValueError")) [] =
      ([], [], RunOutcome.uncaught PyErr.indexError) ∧
    boltRun true true none
        [⟨StepRes.exc (PyErr.userExc "TransportFailure"), none⟩] =
      ([], [[]], RunOutcome.uncaught PyErr.indexError) := ⟨rfl, rfl⟩

/-! ### C4 — clearing of the in-flight unit set -/

theorem runGroups_cons_none {K : Type} [DecidableEq K] (autoAck : Bool)
    (pb : K → List Tup → Option PyErr) (k : K) (b : List Tup)
    (rest : List (K × List Tup)) (cur : List Tup) (h : pb k b = none) :
    runGroups autoAck pb ((k, b) :: rest) cur =
      ((if autoAck then b.map (fun t => Action.ackMsg t.id) else []) ++
        (runGroups autoAck pb rest b).1,
       (runGroups autoAck pb rest b).2.1,
       (runGroups autoAck pb rest b).2.2) := by
  rw [runGroups, h]

theorem runGroups_ok_result {K : Type} [DecidableEq K] (autoAck : Bool)
    (pb : K → List Tup → Option PyErr) (groups : List (K × List Tup))
    (cur : List Tup) (hne : groups ≠ [])
    (hpb : ∀ kb ∈ groups, pb kb.1 kb.2 = none) :
    (runGroups autoAck pb groups cur).2.2 = none ∧
    (runGroups autoAck pb groups cur).2.1 = (groups.getLast hne).2 := by
  induction groups generalizing cur with
  | nil => exact absurd rfl hne
  | cons hd rest ih =>
    obtain ⟨k, b⟩ := hd
    have hk : pb k b = none := hpb (k, b) (by simp)
    rw [runGroups_cons_none autoAck pb k b rest cur hk]
    cases rest with
    | nil => simp [runGroups]
    | cons g rest2 =>
      have ih2 := ih b (by simp)
        (fun kb hkb => hpb kb (List.mem_cons_of_mem _ hkb))
      have hgl : ((k, b) :: g :: rest2).getLast hne =
          (g :: rest2).getLast (List.cons_ne_nil g rest2) :=
        List.getLast_cons (List.cons_ne_nil g rest2)
      refine ⟨ih2.1, ?_⟩
      rw [hgl]
      exact ih2.2

/-- C4 counterexample: after a fully successful flush of one group the
batching engine leaves `_current_tups` equal to that already-processed
batch — it is not cleared. -/
theorem batching_inflight_retained_cex :
    (batchEntryCycle false (fun _ _ => none)
        (⟨[(0, [exTup1])], []⟩ : ConsumerState Nat)).2.1.currentTups =
      [exTup1] ∧ ([exTup1] : List Tup) ≠ [] := ⟨rfl, by simp⟩

/-- C4 (amended): the single-dispatch engine resets `_current_tups` to
`[]` after every successful iteration, so it is empty at the top of
each loop pass; the batching engine instead leaves `_current_tups`
equal to the **last batch processed** after a successful flush — it is
never cleared there, so a later unrelated consumer failure would blame
an already-completed batch. -/
theorem current_tups_clearing {K : Type} [DecidableEq K]
    (autoAck autoFail : Bool) (iters : List IterScript)
    (hok : ∀ it ∈ iters, it.processRes = none ∧
      ∃ t, it.readRes = StepRes.ok t) :
    (∀ s ∈ (boltRunLoop autoAck autoFail [] iters).2.1, s = []) ∧
    (∀ (pb : K → List Tup → Option PyErr) (s : ConsumerState K)
       (hne : s.batches ≠ [])
       (hpb : ∀ kb ∈ s.batches, pb kb.1 kb.2 = none),
       (batchEntryCycle autoAck pb s).2.1.currentTups =
         (s.batches.getLast hne).2) := by
  constructor
  · induction iters with
    | nil => simp [boltRunLoop]
    | cons it rest ih =>
      obtain ⟨hpr, t, hrd⟩ := hok it (by simp)
      intro s hs
      rw [boltRunLoop, hrd] at hs
      simp only [hpr] at hs
      rcases List.mem_cons.mp hs with h1 | h2
      · exact h1
      · exact ih (fun i hi => hok i (List.mem_cons_of_mem _ hi)) s h2
  · intro pb s hne hpb
    have hres := runGroups_ok_result autoAck pb s.batches s.currentTups
      hne hpb
    have hemp : s.batches.isEmpty = false := by
      cases hb : s.batches.isEmpty
      · rfl
      · exact absurd (List.isEmpty_iff.mp hb) hne
    simp [batchEntryCycle, hemp, hres.1, hres.2]

/-- Witness for `current_tups_clearing` on a two-iteration successful
script and a one-group store. -/
theorem current_tups_clearing_witness :
    (∀ it ∈ [(⟨StepRes.ok exTup1, none⟩ : IterScript),
             ⟨StepRes.ok exTup2, none⟩],
      it.processRes = none ∧ ∃ t, it.readRes = StepRes.ok t) ∧
    (batchEntryCycle true (fun (_ : Nat) _ => none)
        (⟨[(0, [exTup1, exTup2])], []⟩ : ConsumerState Nat)).2.1.currentTups
      = [exTup1, exTup2] := by
  have hok : ∀ it ∈ [(⟨StepRes.ok exTup1, none⟩ : IterScript),
      ⟨StepRes.ok exTup2, none⟩],
      it.processRes = none ∧ ∃ t, it.readRes = StepRes.ok t := by
    intro it hit
    rcases List.mem_cons.mp hit with h | h
    · exact ⟨by rw [h], exTup1, by rw [h]⟩
    · rw [List.mem_singleton] at h
      exact ⟨by rw [h], exTup2, by rw [h]⟩
  refine ⟨hok, ?_⟩
  have h := (current_tups_clearing (K := Nat) true true
    [⟨StepRes.ok exTup1, none⟩, ⟨StepRes.ok exTup2, none⟩] hok).2
    (fun _ _ => none) ⟨[(0, [exTup1, exTup2])], []⟩ (by simp)
    (fun kb _ => rfl)
  simpa using h

/-! ### C5 — flush order: iterate then reset -/

/-- C5 counterexample: with `process_batch` raising on the (single)
group, the live store after the cycle still contains the whole group —
the reset of line 342 never ran — while the swap-first flush the spec
describes would leave the live store empty. The claim that "at every
point during group iteration the live store no longer contains the
groups of the flush in progress" is false of the code. -/
theorem flush_swap_order_cex :
    (batchEntryCycle false (fun (_ : Nat) _ => some (PyErr.userExc "boom"))
        (⟨[(0, [exTup1])], []⟩ : ConsumerState Nat)).2.1.batches =
      [(0, [exTup1])] ∧
    (specFlushCycle false (fun (_ : Nat) _ => some (PyErr.userExc "boom"))
        (⟨[(0, [exTup1])], []⟩ : ConsumerState Nat)).2.1.batches = [] ∧
    ([(0, [exTup1])] : List (Nat × List Tup)) ≠ [] := ⟨rfl, rfl, by simp⟩

/-- C5 (amended): the consumer flush holds the lock for the whole
cycle; it iterates the groups of the live store and replaces the store
with a fresh empty one only **after** all groups completed. On the
non-raising path this is observably equivalent to the swap-then-iterate
flush the spec describes (same actions, same final state); but when
`process_batch` raises mid-flush the live store still contains every
group of the flush in progress. -/
theorem flush_reset_after_iteration {K : Type} [DecidableEq K]
    (autoAck : Bool) (pb : K → List Tup → Option PyErr)
    (s : ConsumerState K) :
    ((batchEntryCycle autoAck pb s).2.2 = none →
      (batchEntryCycle autoAck pb s).2.1.batches = [] ∧
      batchEntryCycle autoAck pb s = specFlushCycle autoAck pb s) ∧
    (∀ e, (batchEntryCycle autoAck pb s).2.2 = some e →
      (batchEntryCycle autoAck pb s).2.1.batches = s.batches) := by
  by_cases hemp : s.batches.isEmpty
  · constructor
    · intro _
      refine ⟨?_, by simp [batchEntryCycle, specFlushCycle, hemp]⟩
      simp [batchEntryCycle, hemp, List.isEmpty_iff.mp hemp]
    · intro e he
      simp [batchEntryCycle, hemp] at he
  · cases hexc : (runGroups autoAck pb s.batches s.currentTups).2.2 with
    | none =>
      constructor
      · intro _
        constructor
        · simp [batchEntryCycle, hemp, hexc]
        · simp [batchEntryCycle, specFlushCycle, hemp, hexc]
      · intro e he
        simp [batchEntryCycle, hemp, hexc] at he
    | some e0 =>
      constructor
      · intro hnone
        simp [batchEntryCycle, hemp, hexc] at hnone
      · intro e he
        simp [batchEntryCycle, hemp, hexc]

/-- Witness for `flush_reset_after_iteration`: a successful one-group
cycle resets the store, a raising one leaves it untouched. -/
theorem flush_reset_after_iteration_witness :
    ((batchEntryCycle false (fun (_ : Nat) _ => none)
        (⟨[(0, [exTup1])], []⟩ : ConsumerState Nat)).2.2 = none ∧
      (batchEntryCycle false (fun (_ : Nat) _ => none)
        (⟨[(0, [exTup1])], []⟩ : ConsumerState Nat)).2.1.batches = []) ∧
    ((batchEntryCycle false (fun (_ : Nat) _ => some PyErr.indexError)
        (⟨[(0, [exTup1])], []⟩ : ConsumerState Nat)).2.2 =
          some PyErr.indexError ∧
      (batchEntryCycle false (fun (_ : Nat) _ => some PyErr.indexError)
        (⟨[(0, [exTup1])], []⟩ : ConsumerState Nat)).2.1.batches =
          [(0, [exTup1])]) :=
  ⟨⟨rfl, ((flush_reset_after_iteration false (fun _ _ => none)
      ⟨[(0, [exTup1])], []⟩).1 rfl).1⟩,
    ⟨rfl, (flush_reset_after_iteration false
      (fun _ _ => some PyErr.indexError)
      ⟨[(0, [exTup1])], []⟩).2 PyErr.indexError rfl⟩⟩

/-! ### C7 — batch accumulation correctness -/

/-- C7: after N producer appends and zero flushes, the store maps each
key to exactly the tuples whose `group_key` is that key, in arrival
order (so every tuple occurs exactly once, under its own key); keys are
never duplicated; and no key is ever mapped to an empty tuple list. -/
theorem batch_accumulation {K : Type} [DecidableEq K] (gk : Tup → K)
    (ts : List Tup) (k : K) :
    ((buildBatches gk ts).map Prod.fst).Nodup ∧
    lookupBatch k (buildBatches gk ts) =
      (if (ts.filter (fun t => gk t = k)).isEmpty then none
       else some (ts.filter (fun t => gk t = k))) ∧
    (∀ g, lookupBatch k (buildBatches gk ts) = some g → g ≠ []) := by
  have main : ((buildBatches gk ts).map Prod.fst).Nodup ∧
      lookupBatch k (buildBatches gk ts) =
        (if (ts.filter (fun t => gk t = k)).isEmpty then none
         else some (ts.filter (fun t => gk t = k))) := by
    induction ts using List.reverseRecOn with
    | nil => simp [buildBatches, runReads, lookupBatch]
    | append_singleton ts t ih =>
      have hbb : buildBatches gk (ts ++ [t]) =
          batchAppend (buildBatches gk ts) (gk t) t :=
        runReads_append gk [] ts t
      constructor
      · rw [hbb]
        exact nodupKeys_batchAppend _ _ _ ih.1
      · rw [hbb, lookupBatch_batchAppend, ih.2, List.filter_append]
        by_cases hk : gk t = k
        · rw [if_pos hk]
          have hft : [t].filter (fun t => gk t = k) = [t] := by
            simp [hk]
          rw [hft]
          have hne : ∀ l : List Tup, (l ++ [t]).isEmpty = false := by
            intro l
            cases l <;> rfl
          cases hfe : (ts.filter (fun t => gk t = k)).isEmpty with
          | true => simp [List.isEmpty_iff.mp hfe, hne]
          | false => simp [hne]
        · rw [if_neg hk]
          have hft : [t].filter (fun t => gk t = k) = [] := by
            simp [hk]
          rw [hft, List.append_nil]
  refine ⟨main.1, main.2, ?_⟩
  intro g hg
  rw [main.2] at hg
  cases hfe : (ts.filter (fun t => gk t = k)).isEmpty
  · rw [hfe] at hg
    simp only [Bool.false_eq_true, if_false, Option.some.injEq] at hg
    rw [← hg]
    intro hc
    rw [hc] at hfe
    simp at hfe
  · rw [hfe] at hg
    simp at hg

/-- Witness for `batch_accumulation`: one appended tuple lands under
its own key and the group is non-empty. -/
theorem batch_accumulation_witness :
    lookupBatch "1" (buildBatches (fun t => t.id) [exTup1]) =
      some [exTup1] ∧ [exTup1] ≠ ([] : List Tup) :=
  ⟨rfl, (batch_accumulation (fun t => t.id) [exTup1] "1").2.2 [exTup1] rfl⟩

/-! ### C1 — flush atomicity of the batching engine -/

theorem storeTups_nil {K : Type} [DecidableEq K] :
    storeTups ([] : List (K × List Tup)) = [] := rfl

theorem storeTups_cons {K : Type} [DecidableEq K] (k : K) (l : List Tup)
    (rest : List (K × List Tup)) :
    storeTups ((k, l) :: rest) = l ++ storeTups rest := by
  simp [storeTups]

/-- A producer append adds exactly its tuple to the store contents. -/
theorem storeTups_batchAppend_perm {K : Type} [DecidableEq K]
    (bs : List (K × List Tup)) (k : K) (t : Tup) :
    (storeTups (batchAppend bs k t) : Multiset Tup) =
      (storeTups bs : Multiset Tup) + {t} := by
  induction bs with
  | nil => simp [batchAppend, storeTups]
  | cons hd rest ih =>
    obtain ⟨k0, ts0⟩ := hd
    by_cases h : k0 = k
    · rw [show batchAppend ((k0, ts0) :: rest) k t =
          (k0, ts0 ++ [t]) :: rest from by simp [batchAppend, h]]
      rw [storeTups_cons, storeTups_cons]
      simp only [← Multiset.coe_add, ← Multiset.coe_singleton]
      exact add_right_comm _ _ _
    · rw [show batchAppend ((k0, ts0) :: rest) k t =
          (k0, ts0) :: batchAppend rest k t from by simp [batchAppend, h]]
      rw [storeTups_cons, storeTups_cons]
      simp only [← Multiset.coe_add]
      rw [ih]
      exact (add_assoc _ _ _).symm

/-- Conservation: over any interleaving, store contents plus flushed
contents equal (as a multiset) the starting contents plus everything
appended — no tuple is lost and none is duplicated by the steps. -/
theorem bb_conservation {K : Type} [DecidableEq K] (gk : Tup → K)
    (evs : List Ev) (s : BBState K) :
    (storeTups (bbRunFrom gk s evs).batches : Multiset Tup) +
        (flushedTups (bbRunFrom gk s evs) : Multiset Tup) =
      (storeTups s.batches : Multiset Tup) +
        (flushedTups s : Multiset Tup) + (appendsOf evs : Multiset Tup) := by
  induction evs generalizing s with
  | nil => simp [bbRunFrom, appendsOf]
  | cons e rest ih =>
    rw [show bbRunFrom gk s (e :: rest) =
        bbRunFrom gk (bbStep gk s e) rest from rfl, ih]
    cases e with
    | append t =>
      have hst : storeTups (bbStep gk s (Ev.append t)).batches =
          storeTups (batchAppend s.batches (gk t) t) := rfl
      have hfl : flushedTups (bbStep gk s (Ev.append t)) = flushedTups s :=
        rfl
      have hap : appendsOf (Ev.append t :: rest) = t :: appendsOf rest := rfl
      rw [hst, hfl, hap, storeTups_batchAppend_perm]
      rw [show ((t :: appendsOf rest : List Tup) : Multiset Tup) =
          {t} + (appendsOf rest : Multiset Tup) from by
        rw [← Multiset.cons_coe, ← Multiset.singleton_add]]
      abel
    | flush =>
      by_cases hemp : s.batches.isEmpty
      · rw [show bbStep gk s Ev.flush = s from by simp [bbStep, hemp]]
        rfl
      · have hst : storeTups (bbStep gk s Ev.flush).batches = [] := by
          simp [bbStep, hemp, storeTups]
        have hfl : flushedTups (bbStep gk s Ev.flush) =
            flushedTups s ++ storeTups s.batches := by
          simp [bbStep, hemp, flushedTups]
        have hap : appendsOf (Ev.flush :: rest) = appendsOf rest := rfl
        rw [hst, hfl, hap]
        simp only [← Multiset.coe_add, Multiset.coe_nil]
        abel

/-- Two distinct positions of a list of lists that both contain `t`
force at least two occurrences of `t` in the concatenation. -/
theorem two_le_count_flatten {α : Type} [DecidableEq α] (t : α) :
    ∀ (l : List (List α)) (i j : Nat) (b₁ b₂ : List α), i < j →
      l[i]? = some b₁ → l[j]? = some b₂ → t ∈ b₁ → t ∈ b₂ →
      2 ≤ l.flatten.count t := by
  intro l
  induction l with
  | nil =>
    intro i j b₁ b₂ _ h1
    simp at h1
  | cons c rest ih =>
    intro i j b₁ b₂ hij h1 h2 ht1 ht2
    cases i with
    | zero =>
      have hc : c = b₁ := by simpa using h1
      cases j with
      | zero => omega
      | succ j2 =>
        have h2r : rest[j2]? = some b₂ := by simpa using h2
        have htj : t ∈ rest.flatten :=
          List.mem_flatten.mpr ⟨b₂, List.getElem?_mem h2r, ht2⟩
        have hc1 : 0 < c.count t := List.count_pos_iff.mpr (hc ▸ ht1)
        have hc2 : 0 < rest.flatten.count t := List.count_pos_iff.mpr htj
        rw [show (c :: rest).flatten = c ++ rest.flatten from rfl,
          List.count_append]
        omega
    | succ i2 =>
      cases j with
      | zero => omega
      | succ j2 =>
        have hrec := ih i2 j2 b₁ b₂ (by omega) (by simpa using h1)
          (by simpa using h2) ht1 ht2
        rw [show (c :: rest).flatten = c ++ rest.flatten from rfl,
          List.count_append]
        omega

/-- C1: with producer appends and consumer flushes modeled as atomic
lock-protected steps, (1) every tuple appended before a flush begins
and not yet handed to `process_batch` is contained in the batches of
that flush; (2) a tuple appended only after the flush's store reset
never appears in that flush; and (3) no tuple is handed to
`process_batch` in two different flushes. -/
theorem flush_atomicity {K : Type} [DecidableEq K] (gk : Tup → K)
    (evs : List Ev) (t : Tup) (hnodup : (appendsOf evs).Nodup) :
    (∀ pre post, evs = pre ++ Ev.flush :: post →
      t ∈ appendsOf pre → t ∉ flushedTups (bbRun gk pre) →
      ∃ b, (bbRun gk (pre ++ [Ev.flush])).flushes =
          (bbRun gk pre).flushes ++ [b] ∧ t ∈ storeTups b) ∧
    (∀ pre post b, evs = pre ++ Ev.flush :: post →
      t ∈ appendsOf post →
      (bbRun gk (pre ++ [Ev.flush])).flushes =
        (bbRun gk pre).flushes ++ [b] →
      t ∉ storeTups b) ∧
    (∀ (i j : Nat) (b₁ b₂ : List (K × List Tup)),
      (bbRun gk evs).flushes[i]? = some b₁ →
      (bbRun gk evs).flushes[j]? = some b₂ →
      t ∈ storeTups b₁ → t ∈ storeTups b₂ → i = j) := by
  have hcons : ∀ evs2 : List Ev,
      (storeTups (bbRun gk evs2).batches : Multiset Tup) +
        (flushedTups (bbRun gk evs2) : Multiset Tup) =
      (appendsOf evs2 : Multiset Tup) := by
    intro evs2
    have h := bb_conservation gk evs2 (bbInit : BBState K)
    rw [bbRun]
    rw [h]
    simp [bbInit, storeTups, flushedTups, appendsOf]
  have hstepflush : ∀ pre : List Ev,
      bbRun gk (pre ++ [Ev.flush]) = bbStep gk (bbRun gk pre) Ev.flush := by
    intro pre
    simp [bbRun, bbRunFrom, List.foldl_append]
  refine ⟨?_, ?_, ?_⟩
  · intro pre post hsplit hmem hnf
    have hmem2 : t ∈ ((appendsOf pre : List Tup) : Multiset Tup) :=
      Multiset.mem_coe.mpr hmem
    rw [← hcons pre] at hmem2
    rcases Multiset.mem_add.mp hmem2 with hst | hfl
    · have hstl : t ∈ storeTups (bbRun gk pre).batches :=
        Multiset.mem_coe.mp hst
      have hne : (bbRun gk pre).batches ≠ [] := by
        intro h0
        rw [h0] at hstl
        simp [storeTups] at hstl
      have hemp : (bbRun gk pre).batches.isEmpty = false := by
        cases h0 : (bbRun gk pre).batches.isEmpty
        · rfl
        · exact absurd (List.isEmpty_iff.mp h0) hne
      refine ⟨(bbRun gk pre).batches, ?_, hstl⟩
      rw [hstepflush pre]
      simp [bbStep, hemp]
    · exact absurd (Multiset.mem_coe.mp hfl) hnf
  · intro pre post b hsplit hpost heq
    rw [hstepflush pre] at heq
    by_cases hemp : (bbRun gk pre).batches.isEmpty
    · rw [show bbStep gk (bbRun gk pre) Ev.flush = bbRun gk pre from by
        simp [bbStep, hemp]] at heq
      have hlen := congrArg List.length heq
      simp at hlen
    · rw [show bbStep gk (bbRun gk pre) Ev.flush =
          ⟨[], (bbRun gk pre).flushes ++ [(bbRun gk pre).batches]⟩ from by
        simp [bbStep, hemp]] at heq
      have hb : (bbRun gk pre).batches = b := by
        have h1 := List.append_cancel_left heq
        simpa using h1
      intro htb
      have hmem2 : t ∈ ((appendsOf pre : List Tup) : Multiset Tup) := by
        rw [← hcons pre]
        exact Multiset.mem_add.mpr
          (Or.inl (Multiset.mem_coe.mpr (hb ▸ htb)))
      have htpre : t ∈ appendsOf pre := Multiset.mem_coe.mp hmem2
      have hsplit2 : appendsOf evs = appendsOf pre ++ appendsOf post := by
        rw [hsplit]
        simp [appendsOf]
      rw [hsplit2] at hnodup
      exact (List.nodup_append.mp hnodup).2.2 htpre hpost
  · intro i j b₁ b₂ h1 h2 ht1 ht2
    by_contra hij
    classical
    have hflat : flushedTups (bbRun gk evs) =
        ((bbRun gk evs).flushes.map storeTups).flatten := rfl
    have h1m : ((bbRun gk evs).flushes.map storeTups)[i]? =
        some (storeTups b₁) := by
      rw [List.getElem?_map, h1]
      rfl
    have h2m : ((bbRun gk evs).flushes.map storeTups)[j]? =
        some (storeTups b₂) := by
      rw [List.getElem?_map, h2]
      rfl
    have h2c : 2 ≤ (flushedTups (bbRun gk evs)).count t := by
      rw [hflat]
      rcases Nat.lt_trichotomy i j with h | h | h
      · exact two_le_count_flatten t _ i j _ _ h h1m h2m ht1 ht2
      · exact absurd h hij
      · exact two_le_count_flatten t _ j i _ _ h h2m h1m ht2 ht1
    have hone : (appendsOf evs).count t ≤ 1 :=
      List.nodup_iff_count_le_one.mp hnodup t
    have hsum := congrArg (Multiset.count t) (hcons evs)
    rw [Multiset.count_add, Multiset.coe_count, Multiset.coe_count,
      Multiset.coe_count] at hsum
    omega

/-- Witness for `flush_atomicity`: in the trace append-flush-append-
flush with the default constant group key, the first tuple is appended
before the first flush, is not yet flushed, and that flush's recorded
batch contains it. -/
theorem flush_atomicity_witness :
    (appendsOf exEvs).Nodup ∧
    (∃ b, (bbRun (fun _ : Tup => (none : Option String))
            ([Ev.append exTup1] ++ [Ev.flush])).flushes =
          (bbRun (fun _ : Tup => (none : Option String))
            [Ev.append exTup1]).flushes ++ [b] ∧
        exTup1 ∈ storeTups b) := by
  have hne12 : exTup1 ≠ exTup2 := by
    intro h
    have hid := congrArg Tup.id h
    simp [exTup1, exTup2] at hid
  have hnodup : (appendsOf exEvs).Nodup := by
    rw [show appendsOf exEvs = [exTup1, exTup2] from rfl]
    exact List.nodup_cons.mpr ⟨by simp [hne12], List.nodup_singleton _⟩
  refine ⟨hnodup, ?_⟩
  exact (flush_atomicity (fun _ : Tup => (none : Option String)) exEvs
      exTup1 hnodup).1
    [Ev.append exTup1] [Ev.append exTup2, Ev.flush] rfl
    (by simp [appendsOf]) (List.not_mem_nil _)

end Streamparse
